import Mathlib

/-!
Verification of the CHIP-8 emulator core: a shallow embedding of the
instruction decoder (src/chip_8/instructions/mod.rs), the screen buffer
(src/chip_8/screen.rs) and the game-loop timer gating (src/main.rs),
with theorems about decoding, screen mutation and timer decrements.
Machine integers (u8, u16) are modelled as Nat; the relevant operations
never rely on overflow. A Rust out-of-bounds array index aborts the
program and is modelled as Option.none; Result is modelled as Except.
-/

namespace Chip8

/-- Modelled from the spec: the display width constant. It is defined in
the crate root (chip_8/mod.rs, which is not among the available sources);
the spec fixes the canonical CHIP-8 dimensions (64 x 32). -/
def WIDTH : Nat := 64

/-- Modelled from the spec: the display height constant (see `WIDTH`). -/
def HEIGHT : Nat := 32

/-- Modelled from the spec: the error enum lives in chip_8/mod.rs, which
is not among the available sources. The two constructors below are
exactly the ones built by Instruction::new in
src/chip_8/instructions/mod.rs: the incompatible-program error for the
0NNN opcode and the malformed-instruction error carrying the offending
raw 16-bit value. -/
inductive Chip8Error where
  | ProgramNotCompatible
  | InvalidInstruction (instruction : Nat)
  deriving DecidableEq, Repr

/-- The Instruction enum of src/chip_8/instructions/mod.rs. Register
indices and immediates (u8 / u16 in Rust) are Nats. -/
inductive Instruction where
  | CallMachineCodeRoutine
  | Clear
  | Return
  | Jump (nnn : Nat)
  | Call (nnn : Nat)
  | SkipIfRegisterEquals (vx nn : Nat)
  | SkipIfRegisterNotEquals (vx nn : Nat)
  | SkipIfRegisterVxEqualsVy (vx vy : Nat)
  | SetImmediate (vx nn : Nat)
  | AddImmediate (vx nn : Nat)
  | Copy (vx vy : Nat)
  | BitwiseOr (vx vy : Nat)
  | BitwiseAnd (vx vy : Nat)
  | BitwiseXor (vx vy : Nat)
  | Add (vx vy : Nat)
  | Subtract (vx vy : Nat)
  | RightShift (vx : Nat)
  | SetVxToVyMinusVx (vx vy : Nat)
  | LeftShift (vx : Nat)
  | SkipIfRegisterVxNotEqualsVy (vx vy : Nat)
  | SetIndexRegister (nnn : Nat)
  | JumpWithPcOffset (nnn : Nat)
  | Random (vx nn : Nat)
  | Draw (vx vy n : Nat)
  | SkipIfKeyPressed (vx : Nat)
  | SkipIfKeyNotPressed (vx : Nat)
  | SetVxToDelayTimer (vx : Nat)
  | AwaitKeyInput (vx : Nat)
  | SetDelayTimer (vx : Nat)
  | SetSoundTimer (vx : Nat)
  | AddToIndex (vx : Nat)
  | SetIndexToFontCharacter (vx : Nat)
  | SetIndexToBinaryCodedVx (vx : Nat)
  | DumpRegisters (vx : Nat)
  | LoadRegisters (vx : Nat)
  | Unknown
  deriving DecidableEq, Repr

deriving instance DecidableEq for Except

/-- Instruction::new of src/chip_8/instructions/mod.rs (lines 192-280):
the primary selector is the top nibble; selectors 0x0, 0x8, 0xE, 0xF
dispatch further on the low byte or low nibble. The Rust match on
integer scrutinees is written as the equivalent equality chain. `raw`
is the 16-bit opcode (raw < 65536 whenever it comes from a fetch). -/
def Instruction.new (raw : Nat) : Except Chip8Error Instruction :=
  let first_nibble := raw >>> 12
  let vx := (raw &&& 0x0F00) >>> 8
  let vy := (raw &&& 0x00F0) >>> 4
  let nnn := raw &&& 0x0FFF
  let nn := raw &&& 0x00FF
  let n := raw &&& 0x000F
  if first_nibble = 0x0 then
    let last_byte := raw &&& 0x00FF
    if last_byte = 0xE0 then .ok .Clear
    else if last_byte = 0xEE then .ok .Return
    else .error .ProgramNotCompatible
  else if first_nibble = 0x1 then .ok (.Jump nnn)
  else if first_nibble = 0x2 then .ok (.Call nnn)
  else if first_nibble = 0x3 then .ok (.SkipIfRegisterEquals vx nn)
  else if first_nibble = 0x4 then .ok (.SkipIfRegisterNotEquals vx nn)
  else if first_nibble = 0x5 then .ok (.SkipIfRegisterVxEqualsVy vx vy)
  else if first_nibble = 0x6 then .ok (.SetImmediate vx nn)
  else if first_nibble = 0x7 then .ok (.AddImmediate vx nn)
  else if first_nibble = 0x8 then
    let last_nibble := raw &&& 0x000F
    if last_nibble = 0x0 then .ok (.Copy vx vy)
    else if last_nibble = 0x1 then .ok (.BitwiseOr vx vy)
    else if last_nibble = 0x2 then .ok (.BitwiseAnd vx vy)
    else if last_nibble = 0x3 then .ok (.BitwiseXor vx vy)
    else if last_nibble = 0x4 then .ok (.Add vx vy)
    else if last_nibble = 0x5 then .ok (.Subtract vx vy)
    else if last_nibble = 0x6 then .ok (.RightShift vx)
    else if last_nibble = 0x7 then .ok (.SetVxToVyMinusVx vx vy)
    else if last_nibble = 0xE then .ok (.LeftShift vx)
    else .error (.InvalidInstruction raw)
  else if first_nibble = 0x9 then .ok (.SkipIfRegisterVxNotEqualsVy vx vy)
  else if first_nibble = 0xA then .ok (.SetIndexRegister nnn)
  else if first_nibble = 0xB then .ok (.JumpWithPcOffset nnn)
  else if first_nibble = 0xC then .ok (.Random vx nn)
  else if first_nibble = 0xD then .ok (.Draw vx vy n)
  else if first_nibble = 0xE then
    let last_byte := raw &&& 0x00FF
    if last_byte = 0x9E then .ok (.SkipIfKeyPressed vx)
    else if last_byte = 0xA1 then .ok (.SkipIfKeyNotPressed vx)
    else .error (.InvalidInstruction raw)
  else if first_nibble = 0xF then
    let last_byte := raw &&& 0x00FF
    if last_byte = 0x07 then .ok (.SetVxToDelayTimer vx)
    else if last_byte = 0x0A then .ok (.AwaitKeyInput vx)
    else if last_byte = 0x15 then .ok (.SetDelayTimer vx)
    else if last_byte = 0x18 then .ok (.SetSoundTimer vx)
    else if last_byte = 0x1E then .ok (.AddToIndex vx)
    else if last_byte = 0x29 then .ok (.SetIndexToFontCharacter vx)
    else if last_byte = 0x33 then .ok (.SetIndexToBinaryCodedVx vx)
    else if last_byte = 0x55 then .ok (.DumpRegisters vx)
    else if last_byte = 0x65 then .ok (.LoadRegisters vx)
    else .error (.InvalidInstruction raw)
  else .error (.InvalidInstruction raw)

/-- The Screen of src/chip_8/screen.rs: a buffer of WIDTH*HEIGHT bytes,
row-major from the top-left corner, cell location = WIDTH*y + x. The
Rust fixed-size array is a list; every value of the Rust type has
length WIDTH*HEIGHT, carried as a hypothesis where needed. -/
abbrev Screen : Type := List Nat

/-- Screen::default of src/chip_8/screen.rs: all cells black (0). -/
def Screen.default : Screen := List.replicate (WIDTH * HEIGHT) 0

/-- Screen::clear of src/chip_8/screen.rs: writes 0 to every cell. -/
def Screen.clear (s : Screen) : Screen := s.map fun _ => 0

/-- Screen::invert of src/chip_8/screen.rs (lines 34-41): computes
address = y*WIDTH + x, reads the byte there, stores (byte != 1) as the
new byte and returns it as the Bool result. The Rust indexing
`self.0[address]` aborts when address is out of bounds, modelled as
none. -/
def Screen.invert (s : Screen) (x y : Nat) : Option (Screen × Bool) :=
  let address := y * WIDTH + x
  match s[address]? with
  | none => none
  | some v =>
    let new_state := v != 1
    some (s.set address (if new_state then 1 else 0), new_state)

/-- The Screen invariant: every cell holds 0 or 1. -/
def bits01 (s : Screen) : Prop := ∀ v ∈ s, v = 0 ∨ v = 1

/-- draw_frame of src/main.rs (lines 151-161): maps each frame byte to
an RGBA pixel, 0 to black and 1 to white; any other byte value aborts
(the explicit invalid-screen-memory check), modelled as none. -/
def draw_frame : List Nat → Option (List (List Nat))
  | [] => some []
  | v :: rest =>
    let rgba :=
      if v = 0 then some [0, 0, 0, 0xFF]
      else if v = 1 then some [0xFF, 0xFF, 0xFF, 0xFF]
      else none
    match rgba, draw_frame rest with
    | some r, some rs => some (r :: rs)
    | _, _ => none

/-- Modelled from the spec: Timer::decrement (chip_8/mod.rs, which is
not among the available sources) subtracts 1 saturating at 0; Nat
subtraction is saturating. -/
def Timer.decrement (t : Nat) : Nat := t - 1

/-- The state the game-loop thread of src/main.rs threads through its
iterations, restricted to what the timer logic touches: the CPS counter
`cycles` and the two timers owned by the Chip8. -/
structure LoopState where
  cycles : Nat
  delay : Nat
  sound : Nat
  deriving DecidableEq, Repr

/-- One iteration of the game-loop body of src/main.rs (lines 98-109)
after cycle() returns: when a second has elapsed the CPS counter is
reset (the real-time check abstracted as the Boolean input), the
counter is incremented, and both timers are decremented exactly when
the counter is divisible by 12 (= CYCLES_PER_SECOND / 60). -/
def gameLoopStep (secondElapsed : Bool) (s : LoopState) : LoopState :=
  let cycles0 := if secondElapsed then 0 else s.cycles
  let cycles1 := cycles0 + 1
  if cycles1 % 12 = 0 then
    ⟨cycles1, Timer.decrement s.delay, Timer.decrement s.sound⟩
  else
    ⟨cycles1, s.delay, s.sound⟩

/-- n iterations of the game loop during which no CPS-logging second
boundary is crossed (the first second of execution). -/
def loopIter : Nat → LoopState → LoopState
  | 0, s => s
  | n + 1, s => loopIter n (gameLoopStep false s)

/-! ### Helper lemmas: nibble extraction as division and remainder -/

theorem and_nibble_shiftRight (x k : Nat) :
    (x &&& 15 * 2 ^ k) >>> k = x / 2 ^ k % 16 := by
  apply Nat.eq_of_testBit_eq
  intro j
  rw [Nat.testBit_shiftRight, Nat.testBit_and]
  have hmod : x / 2 ^ k % 16 = (x >>> k) % 2 ^ 4 := by
    rw [Nat.shiftRight_eq_div_pow]
    norm_num
  rw [hmod, Nat.testBit_mod_two_pow, Nat.testBit_shiftRight]
  have hmask : Nat.testBit (15 * 2 ^ k) (k + j) = decide (j < 4) := by
    rw [Nat.testBit_to_div_mod]
    rcases Nat.lt_or_ge j 4 with h | h
    · have hdiv : 15 * 2 ^ k / 2 ^ (k + j) = 15 / 2 ^ j := by
        rw [Nat.pow_add, Nat.mul_comm 15 (2 ^ k),
          Nat.mul_div_mul_left _ _ (Nat.pos_pow_of_pos k (by norm_num))]
      rw [hdiv]
      interval_cases j <;> decide
    · have h15 : (15 : Nat) < 2 ^ j :=
        lt_of_lt_of_le (by norm_num) (Nat.pow_le_pow_right (by norm_num) h)
      have h2 : 15 * 2 ^ k < 2 ^ (k + j) := by
        rw [Nat.pow_add, Nat.mul_comm (2 ^ k) (2 ^ j)]
        exact Nat.mul_lt_mul_of_lt_of_le h15 (Nat.le_refl _)
          (Nat.pos_pow_of_pos k (by norm_num))
      rw [Nat.div_eq_of_lt h2]
      have hj : ¬ (j < 4) := by omega
      simp [hj]
  rw [hmask, Bool.and_comm]

theorem extract_x (raw : Nat) : (raw &&& 0x0F00) >>> 8 = raw / 256 % 16 := by
  have h := and_nibble_shiftRight raw 8
  norm_num at h
  exact h

theorem extract_y (raw : Nat) : (raw &&& 0x00F0) >>> 4 = raw / 16 % 16 := by
  have h := and_nibble_shiftRight raw 4
  norm_num at h
  exact h

theorem and_mask12 (raw : Nat) : raw &&& 0x0FFF = raw % 4096 := by
  have h := Nat.and_pow_two_sub_one_eq_mod raw 12
  norm_num at h
  exact h

theorem and_mask8 (raw : Nat) : raw &&& 0x00FF = raw % 256 := by
  have h := Nat.and_pow_two_sub_one_eq_mod raw 8
  norm_num at h
  exact h

theorem and_mask4 (raw : Nat) : raw &&& 0x000F = raw % 16 := by
  have h := Nat.and_pow_two_sub_one_eq_mod raw 4
  norm_num at h
  exact h

theorem shift12 (raw : Nat) : raw >>> 12 = raw / 4096 := by
  rw [Nat.shiftRight_eq_div_pow]

/-! ### Helper lemmas: list indexing and updating -/

theorem list_get_set_same (l : List Nat) :
    ∀ n a : Nat, n < l.length → (l.set n a)[n]? = some a := by
  induction l with
  | nil => intro n a h; simp at h
  | cons b t ih =>
    intro n a h
    cases n with
    | zero => simp [List.set]
    | succ m =>
      have hm : m < t.length := by simpa using h
      simpa [List.set] using ih m a hm

theorem list_get_set_ne (l : List Nat) :
    ∀ n m a : Nat, n ≠ m → (l.set n a)[m]? = l[m]? := by
  induction l with
  | nil => intro n m a _; simp
  | cons b t ih =>
    intro n m a h
    cases n with
    | zero =>
      cases m with
      | zero => exact absurd rfl h
      | succ j => simp [List.set]
    | succ i =>
      cases m with
      | zero => simp [List.set]
      | succ j =>
        have : i ≠ j := by omega
        simpa [List.set] using ih i j a this

theorem list_set_set (l : List Nat) :
    ∀ n a b : Nat, (l.set n a).set n b = l.set n b := by
  induction l with
  | nil => intro n a b; simp
  | cons c t ih =>
    intro n a b
    cases n with
    | zero => simp [List.set]
    | succ m => simp [List.set, ih m a b]

theorem list_set_get_id (l : List Nat) :
    ∀ n a : Nat, l[n]? = some a → l.set n a = l := by
  induction l with
  | nil => intro n a h; simp at h
  | cons b t ih =>
    intro n a h
    cases n with
    | zero =>
      simp at h
      simp [List.set, h]
    | succ m =>
      simp at h
      simp [List.set, ih m a h]

theorem list_mem_of_get (l : List Nat) :
    ∀ n a : Nat, l[n]? = some a → a ∈ l := by
  induction l with
  | nil => intro n a h; simp at h
  | cons b t ih =>
    intro n a h
    cases n with
    | zero =>
      simp at h
      simp [h]
    | succ m =>
      simp at h
      exact List.mem_cons_of_mem b (ih m a h)

theorem list_mem_set (l : List Nat) :
    ∀ (n a v : Nat), v ∈ l.set n a → v = a ∨ v ∈ l := by
  induction l with
  | nil => intro n a v h; simp at h
  | cons b t ih =>
    intro n a v h
    cases n with
    | zero =>
      rcases List.mem_cons.1 h with h1 | h1
      · exact Or.inl h1
      · exact Or.inr (List.mem_cons_of_mem b h1)
    | succ m =>
      rcases List.mem_cons.1 h with h1 | h1
      · exact Or.inr (by simp [h1])
      · rcases ih m a v h1 with h2 | h2
        · exact Or.inl h2
        · exact Or.inr (List.mem_cons_of_mem b h2)

theorem list_get_none_iff (l : List Nat) :
    ∀ n : Nat, l[n]? = none ↔ l.length ≤ n := by
  induction l with
  | nil => intro n; simp
  | cons b t ih =>
    intro n
    cases n with
    | zero => simp
    | succ m => simp [ih m]

theorem list_get_some_of_lt (l : List Nat) :
    ∀ n : Nat, n < l.length → ∃ a, l[n]? = some a := by
  induction l with
  | nil => intro n h; simp at h
  | cons b t ih =>
    intro n h
    cases n with
    | zero => exact ⟨b, by simp⟩
    | succ m =>
      obtain ⟨a, ha⟩ := ih m (by simpa using h)
      exact ⟨a, by simpa using ha⟩


/-! ### Claim C1 -/

/-- Claim C1 counterexample: the opcode 0x01E0 has top nibble 0x0 and is
not exactly 0x00E0 or 0x00EE, yet Instruction::new decodes it to Clear
rather than the incompatible-program error, because the 0x0 branch
dispatches on the low byte only. -/
theorem decode_zero_selector_counterexample :
    Instruction.new 0x01E0 = .ok .Clear ∧
      Instruction.new 0x01E0 ≠ .error .ProgramNotCompatible := by
  exact ⟨by decide, by decide⟩

/-- Claim C1 (amended): for a 16-bit opcode with top nibble 0x0, decoding
dispatches on the low byte: low byte 0xE0 decodes to Clear and 0xEE to
Return whatever the middle nibble is, and every other low byte yields
the incompatible-program error (never a generic malformed-instruction
error). -/
theorem decode_zero_selector :
    (∀ raw : Nat, raw < 0x1000 → raw &&& 0x00FF ≠ 0xE0 → raw &&& 0x00FF ≠ 0xEE →
        Instruction.new raw = .error .ProgramNotCompatible) ∧
    (∀ x : Nat, x < 16 → Instruction.new (0x100 * x + 0xE0) = .ok .Clear) ∧
    (∀ x : Nat, x < 16 → Instruction.new (0x100 * x + 0xEE) = .ok .Return) := by
  refine ⟨?_, ?_, ?_⟩
  · intro raw hraw he0 hee
    have h12 : raw >>> 12 = 0 := by rw [shift12]; omega
    simp only [Instruction.new, h12]
    norm_num [he0, hee]
  · intro x hx
    have h12 : (0x100 * x + 0xE0) >>> 12 = 0 := by rw [shift12]; omega
    have hbyte : (0x100 * x + 0xE0) &&& 0x00FF = 0xE0 := by rw [and_mask8]; omega
    simp only [Instruction.new, h12, hbyte]
    norm_num
  · intro x hx
    have h12 : (0x100 * x + 0xEE) >>> 12 = 0 := by rw [shift12]; omega
    have hbyte : (0x100 * x + 0xEE) &&& 0x00FF = 0xEE := by rw [and_mask8]; omega
    simp only [Instruction.new, h12, hbyte]
    norm_num

/-- Witness for C1 (amended) at the concrete opcodes 0x0123, 0x01E0 and
0x01EE. -/
theorem decode_zero_selector_witness :
    Instruction.new 0x0123 = .error .ProgramNotCompatible ∧
    Instruction.new (0x100 * 1 + 0xE0) = .ok .Clear ∧
    Instruction.new (0x100 * 1 + 0xEE) = .ok .Return :=
  ⟨decode_zero_selector.1 0x0123 (by decide) (by decide) (by decide),
   decode_zero_selector.2.1 1 (by decide),
   decode_zero_selector.2.2 1 (by decide)⟩

/-! ### Claim C4 -/

/-- Claim C4: decoding each listed opcode from its canonical bit pattern
yields exactly the expected variant, with operands extracted
positionally: 0x00E0 to Clear, 0x00EE to Return, 0x1ABC to Jump with
nnn = 0xABC, and for all register nibbles X and Y, 0x8XY4 to Add X Y,
0x8XY6 to RightShift X, 0xFX55 to DumpRegisters X. -/
theorem decode_canonical_opcodes :
    Instruction.new 0x00E0 = .ok .Clear ∧
    Instruction.new 0x00EE = .ok .Return ∧
    Instruction.new 0x1ABC = .ok (.Jump 0xABC) ∧
    (∀ x y : Nat, x < 16 → y < 16 →
        Instruction.new (0x8000 + 0x100 * x + 0x10 * y + 0x4) = .ok (.Add x y)) ∧
    (∀ x y : Nat, x < 16 → y < 16 →
        Instruction.new (0x8000 + 0x100 * x + 0x10 * y + 0x6) = .ok (.RightShift x)) ∧
    (∀ x : Nat, x < 16 →
        Instruction.new (0xF000 + 0x100 * x + 0x55) = .ok (.DumpRegisters x)) := by
  refine ⟨by decide, by decide, by decide, ?_, ?_, ?_⟩
  · intro x y hx hy
    have h12 : (0x8000 + 0x100 * x + 0x10 * y + 0x4) >>> 12 = 8 := by rw [shift12]; omega
    have hvx : ((0x8000 + 0x100 * x + 0x10 * y + 0x4) &&& 0x0F00) >>> 8 = x := by
      rw [extract_x]; omega
    have hvy : ((0x8000 + 0x100 * x + 0x10 * y + 0x4) &&& 0x00F0) >>> 4 = y := by
      rw [extract_y]; omega
    have hn : (0x8000 + 0x100 * x + 0x10 * y + 0x4) &&& 0x000F = 4 := by
      rw [and_mask4]; omega
    simp only [Instruction.new, h12, hvx, hvy, hn]
    norm_num
  · intro x y hx hy
    have h12 : (0x8000 + 0x100 * x + 0x10 * y + 0x6) >>> 12 = 8 := by rw [shift12]; omega
    have hvx : ((0x8000 + 0x100 * x + 0x10 * y + 0x6) &&& 0x0F00) >>> 8 = x := by
      rw [extract_x]; omega
    have hn : (0x8000 + 0x100 * x + 0x10 * y + 0x6) &&& 0x000F = 6 := by
      rw [and_mask4]; omega
    simp only [Instruction.new, h12, hvx, hn]
    norm_num
  · intro x hx
    have h12 : (0xF000 + 0x100 * x + 0x55) >>> 12 = 15 := by rw [shift12]; omega
    have hvx : ((0xF000 + 0x100 * x + 0x55) &&& 0x0F00) >>> 8 = x := by
      rw [extract_x]; omega
    have hbyte : (0xF000 + 0x100 * x + 0x55) &&& 0x00FF = 0x55 := by
      rw [and_mask8]; omega
    simp only [Instruction.new, h12, hvx, hbyte]
    norm_num

/-- Witness for C4 at X = 0xA, Y = 0xB. -/
theorem decode_canonical_opcodes_witness :
    Instruction.new (0x8000 + 0x100 * 10 + 0x10 * 11 + 0x4) = .ok (.Add 10 11) ∧
    Instruction.new (0x8000 + 0x100 * 10 + 0x10 * 11 + 0x6) = .ok (.RightShift 10) ∧
    Instruction.new (0xF000 + 0x100 * 10 + 0x55) = .ok (.DumpRegisters 10) :=
  ⟨decode_canonical_opcodes.2.2.2.1 10 11 (by decide) (by decide),
   decode_canonical_opcodes.2.2.2.2.1 10 11 (by decide) (by decide),
   decode_canonical_opcodes.2.2.2.2.2 10 (by decide)⟩


/-! ### Claim C5 -/

/-- Claim C5: for primary selector 0x8 with a low nibble matching no
defined instruction, and selectors 0xE and 0xF with a low byte matching
no defined instruction, decoding yields the malformed-instruction error
carrying the offending raw 16-bit value. -/
theorem decode_malformed_subselectors :
    (∀ x y n : Nat, x < 16 → y < 16 → n < 16 →
        n ≠ 0x0 → n ≠ 0x1 → n ≠ 0x2 → n ≠ 0x3 → n ≠ 0x4 → n ≠ 0x5 →
        n ≠ 0x6 → n ≠ 0x7 → n ≠ 0xE →
        Instruction.new (0x8000 + 0x100 * x + 0x10 * y + n) =
          .error (.InvalidInstruction (0x8000 + 0x100 * x + 0x10 * y + n))) ∧
    (∀ x b : Nat, x < 16 → b < 256 → b ≠ 0x9E → b ≠ 0xA1 →
        Instruction.new (0xE000 + 0x100 * x + b) =
          .error (.InvalidInstruction (0xE000 + 0x100 * x + b))) ∧
    (∀ x b : Nat, x < 16 → b < 256 →
        b ≠ 0x07 → b ≠ 0x0A → b ≠ 0x15 → b ≠ 0x18 → b ≠ 0x1E →
        b ≠ 0x29 → b ≠ 0x33 → b ≠ 0x55 → b ≠ 0x65 →
        Instruction.new (0xF000 + 0x100 * x + b) =
          .error (.InvalidInstruction (0xF000 + 0x100 * x + b))) := by
  refine ⟨?_, ?_, ?_⟩
  · intro x y n hx hy hn h0 h1 h2 h3 h4 h5 h6 h7 hE
    have h12 : (0x8000 + 0x100 * x + 0x10 * y + n) >>> 12 = 8 := by rw [shift12]; omega
    have hlow : (0x8000 + 0x100 * x + 0x10 * y + n) &&& 0x000F = n := by
      rw [and_mask4]; omega
    simp only [Instruction.new, h12, hlow]
    norm_num [h0, h1, h2, h3, h4, h5, h6, h7, hE]
  · intro x b hx hb h9E hA1
    have h12 : (0xE000 + 0x100 * x + b) >>> 12 = 14 := by rw [shift12]; omega
    have hlow : (0xE000 + 0x100 * x + b) &&& 0x00FF = b := by
      rw [and_mask8]; omega
    simp only [Instruction.new, h12, hlow]
    norm_num [h9E, hA1]
  · intro x b hx hb h07 h0A h15 h18 h1E h29 h33 h55 h65
    have h12 : (0xF000 + 0x100 * x + b) >>> 12 = 15 := by rw [shift12]; omega
    have hlow : (0xF000 + 0x100 * x + b) &&& 0x00FF = b := by
      rw [and_mask8]; omega
    simp only [Instruction.new, h12, hlow]
    norm_num [h07, h0A, h15, h18, h1E, h29, h33, h55, h65]

/-- Witness for C5 at the opcodes 0x8008, 0xE000 and 0xF0FF. -/
theorem decode_malformed_subselectors_witness :
    Instruction.new (0x8000 + 0x100 * 0 + 0x10 * 0 + 8) =
      .error (.InvalidInstruction (0x8000 + 0x100 * 0 + 0x10 * 0 + 8)) ∧
    Instruction.new (0xE000 + 0x100 * 0 + 0) =
      .error (.InvalidInstruction (0xE000 + 0x100 * 0 + 0)) ∧
    Instruction.new (0xF000 + 0x100 * 0 + 0xFF) =
      .error (.InvalidInstruction (0xF000 + 0x100 * 0 + 0xFF)) :=
  ⟨decode_malformed_subselectors.1 0 0 8 (by decide) (by decide) (by decide)
      (by decide) (by decide) (by decide) (by decide) (by decide) (by decide)
      (by decide) (by decide) (by decide),
   decode_malformed_subselectors.2.1 0 0 (by decide) (by decide) (by decide) (by decide),
   decode_malformed_subselectors.2.2 0 0xFF (by decide) (by decide) (by decide)
      (by decide) (by decide) (by decide) (by decide) (by decide) (by decide)
      (by decide) (by decide)⟩

/-! ### Claim C10 -/

/-- Claim C10: every opcode with top nibble 0x5 decodes to
SkipIfRegisterVxEqualsVy and every opcode with top nibble 0x9 decodes
to SkipIfRegisterVxNotEqualsVy, whatever the low nibble is; the low
nibble is never checked and never produces a decode error. -/
theorem decode_skip_selectors_ignore_low_nibble :
    ∀ x y n : Nat, x < 16 → y < 16 → n < 16 →
      Instruction.new (0x5000 + 0x100 * x + 0x10 * y + n) =
        .ok (.SkipIfRegisterVxEqualsVy x y) ∧
      Instruction.new (0x9000 + 0x100 * x + 0x10 * y + n) =
        .ok (.SkipIfRegisterVxNotEqualsVy x y) := by
  intro x y n hx hy hn
  constructor
  · have h12 : (0x5000 + 0x100 * x + 0x10 * y + n) >>> 12 = 5 := by rw [shift12]; omega
    have hvx : ((0x5000 + 0x100 * x + 0x10 * y + n) &&& 0x0F00) >>> 8 = x := by
      rw [extract_x]; omega
    have hvy : ((0x5000 + 0x100 * x + 0x10 * y + n) &&& 0x00F0) >>> 4 = y := by
      rw [extract_y]; omega
    simp only [Instruction.new, h12, hvx, hvy]
    norm_num
  · have h12 : (0x9000 + 0x100 * x + 0x10 * y + n) >>> 12 = 9 := by rw [shift12]; omega
    have hvx : ((0x9000 + 0x100 * x + 0x10 * y + n) &&& 0x0F00) >>> 8 = x := by
      rw [extract_x]; omega
    have hvy : ((0x9000 + 0x100 * x + 0x10 * y + n) &&& 0x00F0) >>> 4 = y := by
      rw [extract_y]; omega
    simp only [Instruction.new, h12, hvx, hvy]
    norm_num

/-- Witness for C10 at 0x5AB7 and 0x9AB7. -/
theorem decode_skip_selectors_ignore_low_nibble_witness :
    Instruction.new (0x5000 + 0x100 * 10 + 0x10 * 11 + 7) =
      .ok (.SkipIfRegisterVxEqualsVy 10 11) ∧
    Instruction.new (0x9000 + 0x100 * 10 + 0x10 * 11 + 7) =
      .ok (.SkipIfRegisterVxNotEqualsVy 10 11) :=
  decode_skip_selectors_ignore_low_nibble 10 11 7 (by decide) (by decide) (by decide)


/-! ### Claim C2 -/

/-- Claim C2 counterexample: Screen::invert does not wrap out-of-range
coordinates. At (x, y) = (0, 32) on the all-black screen the computed
address 32*WIDTH = 2048 is out of bounds and the indexing aborts
(modelled as none), whereas wrapping would have flipped cell 0. -/
theorem invert_wrap_counterexample :
    Screen.invert Screen.default 0 32 = none := by
  have hnone : (Screen.default : List Nat)[32 * WIDTH + 0]? = none := by
    rw [list_get_none_iff]
    norm_num [Screen.default, WIDTH, HEIGHT]
  simp only [Screen.invert]
  rw [hnone]

/-- Claim C2 (amended): Screen::invert does not reduce coordinates
modulo the screen dimensions; it indexes the unwrapped linear address
y*WIDTH + x, is defined exactly when that address is below
WIDTH*HEIGHT, and aborts out of bounds (for instance for any y >=
HEIGHT with x = 0). -/
theorem invert_defined_iff_address_in_range (s : Screen) (x y : Nat)
    (hlen : s.length = WIDTH * HEIGHT) :
    (Screen.invert s x y).isSome ↔ y * WIDTH + x < WIDTH * HEIGHT := by
  constructor
  · intro hs
    by_contra hge
    have hnone : s[y * WIDTH + x]? = none := by
      rw [list_get_none_iff]
      omega
    simp [Screen.invert, hnone] at hs
  · intro hlt
    obtain ⟨a, ha⟩ := list_get_some_of_lt s (y * WIDTH + x) (by omega)
    simp [Screen.invert, ha]

/-- Witness for C2 (amended) on the default screen at the origin. -/
theorem invert_defined_iff_address_in_range_witness :
    (Screen.invert Screen.default 0 0).isSome ↔ 0 * WIDTH + 0 < WIDTH * HEIGHT :=
  invert_defined_iff_address_in_range Screen.default 0 0 (by simp [Screen.default])

/-! ### Claim C6 -/

/-- Claim C6: for in-range coordinates, Screen::invert flips the bit
cell at row-major address y*WIDTH + x (0 becomes 1 and 1 becomes 0) and
returns the new value of that cell as a Bool, true meaning lit (1). -/
theorem invert_flips_cell (s : Screen) (x y old : Nat)
    (hx : x < WIDTH) (hy : y < HEIGHT) (hlen : s.length = WIDTH * HEIGHT)
    (hold : s[y * WIDTH + x]? = some old) (hbit : old = 0 ∨ old = 1) :
    Screen.invert s x y =
      some (s.set (y * WIDTH + x) (1 - old), decide (1 - old = 1)) := by
  rcases hbit with h | h <;> subst h <;> simp [Screen.invert, hold]

/-- Witness for C6 on the default screen at the origin. -/
theorem invert_flips_cell_witness :
    Screen.invert Screen.default 0 0 =
      some ((Screen.default : Screen).set (0 * WIDTH + 0) (1 - 0), decide (1 - 0 = 1)) :=
  invert_flips_cell Screen.default 0 0 0 (by decide) (by decide)
    (by simp [Screen.default])
    (show (List.replicate (WIDTH * HEIGHT) 0)[0 * WIDTH + 0]? = some 0 from
      List.getElem?_replicate_of_lt (by decide))
    (Or.inl rfl)


/-! ### Claim C7 -/

/-- Claim C7: for in-range coordinates and any screen state (whose
cells, per the Screen invariant, hold only bits), inverting the same
cell twice restores the screen to exactly its original state. -/
theorem invert_twice_restores (s : Screen) (x y : Nat)
    (hx : x < WIDTH) (hy : y < HEIGHT) (hlen : s.length = WIDTH * HEIGHT)
    (hbits : bits01 s) :
    ∃ (s1 : Screen) (b1 b2 : Bool),
      Screen.invert s x y = some (s1, b1) ∧ Screen.invert s1 x y = some (s, b2) := by
  have haddr : y * WIDTH + x < s.length := by
    rw [hlen]
    simp only [WIDTH, HEIGHT] at hx hy ⊢
    omega
  obtain ⟨old, hold⟩ := list_get_some_of_lt s (y * WIDTH + x) haddr
  have hbit := hbits old (list_mem_of_get s (y * WIDTH + x) old hold)
  have haddr1 : y * WIDTH + x < (s.set (y * WIDTH + x) 1).length := by
    rw [List.length_set]; exact haddr
  have haddr0 : y * WIDTH + x < (s.set (y * WIDTH + x) 0).length := by
    rw [List.length_set]; exact haddr
  rcases hbit with h | h <;> subst h
  · refine ⟨s.set (y * WIDTH + x) 1, true, false, ?_, ?_⟩
    · simp [Screen.invert, hold]
    · have h1 : (s.set (y * WIDTH + x) 1)[y * WIDTH + x]? = some 1 :=
        list_get_set_same s (y * WIDTH + x) 1 haddr
      have h2 : (s.set (y * WIDTH + x) 1).set (y * WIDTH + x) 0 = s.set (y * WIDTH + x) 0 :=
        list_set_set s (y * WIDTH + x) 1 0
      have h3 : s.set (y * WIDTH + x) 0 = s :=
        list_set_get_id s (y * WIDTH + x) 0 hold
      simp [Screen.invert, h1, h2, h3]
  · refine ⟨s.set (y * WIDTH + x) 0, false, true, ?_, ?_⟩
    · simp [Screen.invert, hold]
    · have h1 : (s.set (y * WIDTH + x) 0)[y * WIDTH + x]? = some 0 :=
        list_get_set_same s (y * WIDTH + x) 0 haddr
      have h2 : (s.set (y * WIDTH + x) 0).set (y * WIDTH + x) 1 = s.set (y * WIDTH + x) 1 :=
        list_set_set s (y * WIDTH + x) 0 1
      have h3 : s.set (y * WIDTH + x) 1 = s :=
        list_set_get_id s (y * WIDTH + x) 1 hold
      simp [Screen.invert, h1, h2, h3]

/-- Witness for C7 on the default screen at the origin. -/
theorem invert_twice_restores_witness :
    ∃ (s1 : Screen) (b1 b2 : Bool),
      Screen.invert Screen.default 0 0 = some (s1, b1) ∧
      Screen.invert s1 0 0 = some (Screen.default, b2) :=
  invert_twice_restores Screen.default 0 0 (by decide) (by decide)
    (by simp [Screen.default])
    (fun v hv => Or.inl (List.eq_of_mem_replicate hv))

/-! ### Claim C8 -/

/-- Claim C8: for in-range coordinates and any screen state,
Screen::invert changes only the single cell at row-major address
y*WIDTH + x; every other cell of the buffer is unchanged (and the
buffer length is unchanged). -/
theorem invert_changes_only_target (s : Screen) (x y : Nat)
    (hx : x < WIDTH) (hy : y < HEIGHT) (hlen : s.length = WIDTH * HEIGHT) :
    ∃ (s1 : Screen) (b : Bool),
      Screen.invert s x y = some (s1, b) ∧ s1.length = s.length ∧
      ∀ j : Nat, j ≠ y * WIDTH + x → s1[j]? = s[j]? := by
  have haddr : y * WIDTH + x < s.length := by
    rw [hlen]
    simp only [WIDTH, HEIGHT] at hx hy ⊢
    omega
  obtain ⟨old, hold⟩ := list_get_some_of_lt s (y * WIDTH + x) haddr
  refine ⟨s.set (y * WIDTH + x) (if old != 1 then 1 else 0), old != 1, ?_, ?_, ?_⟩
  · simp [Screen.invert, hold]
  · exact List.length_set s (y * WIDTH + x) _
  · intro j hj
    exact list_get_set_ne s (y * WIDTH + x) j _ (fun heq => hj heq.symm)

/-- Witness for C8 on the default screen at the origin. -/
theorem invert_changes_only_target_witness :
    ∃ (s1 : Screen) (b : Bool),
      Screen.invert Screen.default 0 0 = some (s1, b) ∧
      s1.length = (Screen.default : Screen).length ∧
      ∀ j : Nat, j ≠ 0 * WIDTH + 0 → s1[j]? = (Screen.default : Screen)[j]? :=
  invert_changes_only_target Screen.default 0 0 (by decide) (by decide)
    (by simp [Screen.default])

/-! ### Claim C9 -/

/-- Every frame whose cells are bits renders without hitting the
invalid-screen-memory abort of draw_frame. -/
theorem draw_frame_total : ∀ s : List Nat, bits01 s → (draw_frame s).isSome := by
  intro s
  induction s with
  | nil => intro _; rfl
  | cons a t ih =>
    intro hb
    have ha := hb a (List.mem_cons_self a t)
    have hsome := ih (fun v hv => hb v (List.mem_cons_of_mem a hv))
    rcases ht : draw_frame t with _ | r
    · rw [ht] at hsome
      simp at hsome
    · rcases ha with h | h <;> subst h <;> simp [draw_frame, ht]

/-- Claim C9: every cell of the Screen buffer is always 0 or 1: the
invariant holds of Screen::default, is preserved by Screen::clear and
Screen::invert, and hence every frame handed to the frame sink renders
without hitting the invalid-screen-memory abort of draw_frame. -/
theorem screen_cells_are_bits :
    bits01 Screen.default ∧
    (∀ s : Screen, bits01 (Screen.clear s)) ∧
    (∀ (s : Screen) (x y : Nat) (s1 : Screen) (b : Bool),
        bits01 s → Screen.invert s x y = some (s1, b) → bits01 s1) ∧
    (∀ s : Screen, bits01 s → (draw_frame s).isSome) := by
  refine ⟨?_, ?_, ?_, draw_frame_total⟩
  · intro v hv
    exact Or.inl (List.eq_of_mem_replicate hv)
  · intro s v hv
    simp only [Screen.clear, List.mem_map] at hv
    obtain ⟨a, _, ha⟩ := hv
    exact Or.inl ha.symm
  · intro s x y s1 b hb hinv
    simp only [Screen.invert] at hinv
    rcases hc : s[y * WIDTH + x]? with _ | v
    · rw [hc] at hinv
      simp at hinv
    · rw [hc] at hinv
      simp only [Option.some.injEq, Prod.mk.injEq] at hinv
      obtain ⟨hs1, _⟩ := hinv
      intro w hw
      rw [← hs1] at hw
      rcases list_mem_set s (y * WIDTH + x) _ w hw with h | h
      · by_cases hv1 : (v != 1) = true <;> simp [hv1] at h <;> simp [h]
      · exact hb w h

/-- Witness for C9: the invariant holds of cleared and inverted
concrete screens, and the default frame renders. -/
theorem screen_cells_are_bits_witness :
    bits01 (Screen.clear Screen.default) ∧
    bits01 ((Screen.default : Screen).set 0 1) ∧
    (draw_frame Screen.default).isSome :=
  ⟨screen_cells_are_bits.2.1 Screen.default,
   screen_cells_are_bits.2.2.1 Screen.default 0 0 ((Screen.default : Screen).set 0 1) true
     screen_cells_are_bits.1
     (show Screen.invert Screen.default 0 0 = some ((Screen.default : Screen).set 0 1, true) by
       have hold : (Screen.default : List Nat)[(0 : Nat)]? = some 0 :=
         List.getElem?_replicate_of_lt (by decide)
       simp [Screen.invert, hold]),
   screen_cells_are_bits.2.2.2 Screen.default screen_cells_are_bits.1⟩

/-! ### Claim C3 -/

/-- Closed form of the game loop: starting from CPS counter c, after n
iterations the counter is c + n and each timer has been decremented
once per multiple of 12 crossed. -/
theorem loopIter_eq (n : Nat) : ∀ c d sd : Nat,
    loopIter n ⟨c, d, sd⟩ =
      ⟨c + n, d - ((c + n) / 12 - c / 12), sd - ((c + n) / 12 - c / 12)⟩ := by
  induction n with
  | zero => intro c d sd; simp [loopIter]
  | succ n ih =>
    intro c d sd
    show loopIter n (gameLoopStep false ⟨c, d, sd⟩) = _
    by_cases h : (c + 1) % 12 = 0
    · have hstep : gameLoopStep false ⟨c, d, sd⟩ = ⟨c + 1, d - 1, sd - 1⟩ := by
        simp [gameLoopStep, Timer.decrement, h]
      rw [hstep, ih]
      simp only [LoopState.mk.injEq]
      refine ⟨by omega, by omega, by omega⟩
    · have hstep : gameLoopStep false ⟨c, d, sd⟩ = ⟨c + 1, d, sd⟩ := by
        simp [gameLoopStep, Timer.decrement, h]
      rw [hstep, ih]
      simp only [LoopState.mk.injEq]
      refine ⟨by omega, by omega, by omega⟩

/-- Claim C3 counterexample: the timers are decremented as a function
of the instruction cycle count. In the first second of execution (no
CPS reset), 24 invocations of cycle() starting from timers at 255 leave
both timers at 253 = 255 - 24/12: exactly one decrement per 12 cycle()
invocations, derived by division inside the loop. -/
theorem timers_coupled_to_cycles_counterexample :
    loopIter 24 ⟨0, 255, 255⟩ = ⟨24, 253, 253⟩ ∧ (253 : Nat) = 255 - 24 / 12 := by
  exact ⟨by decide, by decide⟩

/-- Claim C3 (amended): the number of timer decrements is derived from
the count of cycle() invocations by division inside the emulation loop:
the loop decrements both timers exactly when its post-increment cycle
counter is divisible by 12 = CYCLES_PER_SECOND / 60, so after n
invocations (without a CPS-logging reset) each timer has been
decremented exactly n / 12 times; there is no independent 60 Hz tick. -/
theorem timers_decrement_by_cycle_division (n d sd : Nat) :
    loopIter n ⟨0, d, sd⟩ = ⟨n, d - n / 12, sd - n / 12⟩ := by
  have h := loopIter_eq n 0 d sd
  simpa using h

end Chip8
